import Mathlib

/-!
# Verification of the column layer of `journalism/columns.py`

Shallow embedding of the column abstraction: a `Table` owns row data plus
parallel column-name and column-type lists; a `Column` is a lazy cached view
over one slot across all rows.  Python values that can inhabit a column cell
are modelled by the inductive `Value`: the null marker `None`, strings,
machine integers (arbitrary precision in Python) and `decimal.Decimal`.

Modelling notes, stated once here:
* `Decimal` values are modelled as rationals (`ℚ`); construction from
  strings and ints is exact, like Python's.  `Decimal` *arithmetic*
  (addition, subtraction, squaring, division) is modelled as the exact
  rational result rounded to the default context's 28 significant digits
  with ties to even (`roundDec` below), which is the numeric behaviour of
  Python's `decimal` module under its default context.  `Decimal.sqrt`
  alone remains a stand-in: only its definedness is used by any theorem.
* Python dictionaries (`defaultdict`) are modelled as association lists in
  first-insertion order.  The spec leaves tie order in `counts()` and
  `mode()` unspecified, and no theorem below depends on the dictionary
  order beyond what first-insertion order provides.
* Exceptions are modelled with `Except PyErr`.
-/

inductive PyErr where
  | nullComputation
  | valueError
  | zeroDivision
  | indexError
  | typeError
  deriving Repr, DecidableEq

/-- A Python value that can appear in a table cell: `None`, `str`/`unicode`,
`int`, or `decimal.Decimal` (modelled as an exact rational). -/
inductive Value where
  | none
  | text (s : String)
  | int (n : ℤ)
  | decimal (q : ℚ)
  deriving Repr, DecidableEq

/-- The numeric content of a value, when it has one. -/
def Value.toQ : Value → Option ℚ
  | .int n => some (n : ℚ)
  | .decimal q => some q
  | _ => Option.none

/-- Numeric content with default 0; only meaningful on numeric values. -/
def Value.toQd (v : Value) : ℚ := (v.toQ).getD 0

def Value.isNum : Value → Bool
  | .int _ => true
  | .decimal _ => true
  | _ => false

def Value.isNone : Value → Bool
  | .none => true
  | _ => false

/-- Python `==` on cell values: `None` equals only `None`, strings compare as
strings, and numbers (`int` and `Decimal`) compare by numeric value across
types; every other cross-type comparison is `False`. -/
def pyEq (a b : Value) : Bool :=
  match a, b with
  | .none, .none => true
  | .text s, .text t => s = t
  | .int m, .int n => m = n
  | .int m, .decimal q => (m : ℚ) = q
  | .decimal q, .int n => q = (n : ℚ)
  | .decimal p, .decimal q => p = q
  | _, _ => false

/-- Column type tags: `TextColumn`, `IntColumn`, `DecimalColumn`. -/
inductive ColType where
  | text
  | int
  | decimal
  deriving Repr, DecidableEq

/-- The owning table's state, as the columns see it: `_data` (rows of cell
values), `_column_types` and `_column_names`, parallel lists. -/
structure Table where
  data : List (List Value)
  column_types : List ColType
  column_names : List String
  deriving Repr, DecidableEq

/-- Reading `row[i]`.  Python raises `IndexError` when the slot is missing;
the table invariant (`len(row) == len(column_names)` for every row) makes the
access in-range everywhere the column layer performs it, so it is modelled
total with a default. -/
def rowGet (r : List Value) (i : ℕ) : Value := r.getD i Value.none

/-- The slice of a table at slot `i`: `[r[i] for r in table._data]`. -/
def sliceOf (t : Table) (i : ℕ) : List Value := t.data.map (fun r => rowGet r i)

/-- A `Column`: back-reference to the owning table, a slot index, and the
three lazily populated caches. -/
structure ColumnState where
  table : Table
  index : ℕ
  cached_data : Option (List Value)
  cached_data_without_nulls : Option (List Value)
  cached_data_sorted : Option (List Value)
  deriving Repr, DecidableEq

/-- A freshly constructed column (`Column.__init__`): all caches empty. -/
def ColumnState.mk0 (t : Table) (i : ℕ) : ColumnState :=
  ⟨t, i, Option.none, Option.none, Option.none⟩

/-- `Column._data()`: return the cached slice, computing and memoizing it on
first demand.  State-passing models the write to the cache field. -/
def ColumnState.dataOp (c : ColumnState) : ColumnState × List Value :=
  match c.cached_data with
  | some d => (c, d)
  | Option.none =>
      let d := sliceOf c.table c.index
      ({ c with cached_data := some d }, d)

/-- The raw-slice cache invariant: if populated, the cache holds exactly the
per-row slot values of the owning table. -/
def cacheInv (c : ColumnState) : Prop :=
  ∀ d, c.cached_data = some d → d = sliceOf c.table c.index

/-- Python list indexing `l[j]` with an integer index: negative indices count
from the end; out-of-range raises `IndexError`. -/
def pyIndex (l : List Value) (j : ℤ) : Except PyErr Value :=
  let n : ℤ := l.length
  if 0 ≤ j then
    if j < n then Except.ok (l.getD j.toNat Value.none) else Except.error .indexError
  else
    if 0 ≤ j + n then Except.ok (l.getD (j + n).toNat Value.none)
    else Except.error .indexError

/-- `Column.__getitem__(j)`: `self._data()[j]`. -/
def ColumnState.getitem (c : ColumnState) (j : ℤ) : ColumnState × Except PyErr Value :=
  let p := c.dataOp
  (p.1, pyIndex p.2 j)

theorem dataOp_snd (c : ColumnState) (h : cacheInv c) :
    c.dataOp.2 = sliceOf c.table c.index := by
  unfold ColumnState.dataOp
  cases hc : c.cached_data with
  | none => simp
  | some d => simpa using h d hc

theorem dataOp_table (c : ColumnState) : c.dataOp.1.table = c.table := by
  unfold ColumnState.dataOp
  cases hc : c.cached_data <;> simp

theorem dataOp_index (c : ColumnState) : c.dataOp.1.index = c.index := by
  unfold ColumnState.dataOp
  cases hc : c.cached_data <;> simp

theorem dataOp_inv (c : ColumnState) (h : cacheInv c) : cacheInv c.dataOp.1 := by
  unfold ColumnState.dataOp
  cases hc : c.cached_data with
  | none => intro d hd; simpa using hd.symm
  | some d => simpa [cacheInv, hc] using h

theorem sliceOf_length (t : Table) (i : ℕ) : (sliceOf t i).length = t.data.length := by
  simp [sliceOf]

theorem getD_sliceOf (t : Table) (i j : ℕ) (hj : j < t.data.length) :
    (sliceOf t i).getD j Value.none = rowGet (t.data.getD j []) i := by
  simp [sliceOf, List.getD_eq_getElem?_getD, List.getElem?_map,
    List.getElem?_eq_getElem hj]

/-- C1: for every column with a valid raw-slice cache and every valid row
position `j`, `at(j)` returns exactly `table._data[j][index]`, and the cache
remains valid afterwards: the lazily cached slice never diverges from the
per-row slot values of the owning table. -/
theorem column_at_view_consistency (c : ColumnState) (j : ℕ)
    (hc : cacheInv c) (hj : j < c.table.data.length) :
    (c.getitem (j : ℤ)).2 = Except.ok (rowGet (c.table.data.getD j []) c.index) ∧
    cacheInv (c.getitem (j : ℤ)).1 := by
  have h2 : (c.getitem (j : ℤ)).2 = pyIndex (sliceOf c.table c.index) (j : ℤ) := by
    simp [ColumnState.getitem, dataOp_snd c hc]
  have h1 : (c.getitem (j : ℤ)).1 = c.dataOp.1 := rfl
  refine ⟨?_, ?_⟩
  · rw [h2]
    unfold pyIndex
    have hn : ((j : ℤ)) < ((sliceOf c.table c.index).length : ℤ) := by
      rw [sliceOf_length]; exact_mod_cast hj
    simp only [Int.ofNat_nonneg, if_true, hn, if_pos, Int.toNat_ofNat]
    rw [getD_sliceOf c.table c.index j hj]
  · rw [h1]; exact dataOp_inv c hc

theorem column_at_view_consistency_witness :
    ((ColumnState.mk0 ⟨[[Value.int 10], [Value.int 20]], [ColType.int], ["a"]⟩ 0).getitem
        ((1 : ℕ) : ℤ)).2 =
      Except.ok (rowGet
        ((ColumnState.mk0 ⟨[[Value.int 10], [Value.int 20]], [ColType.int], ["a"]⟩ 0).table.data.getD 1 [])
        (ColumnState.mk0 ⟨[[Value.int 10], [Value.int 20]], [ColType.int], ["a"]⟩ 0).index) ∧
    cacheInv ((ColumnState.mk0 ⟨[[Value.int 10], [Value.int 20]], [ColType.int], ["a"]⟩ 0).getitem
        ((1 : ℕ) : ℤ)).1 :=
  column_at_view_consistency _ 1 (fun d hd => by cases hd) (by decide)

/-- C5 counterexample: on a two-row column, positional access at `-1` — an
index outside `[0, length())` — does not fail: Python negative indexing
returns the last element. -/
theorem at_negative_index_returns_value :
    ((ColumnState.mk0 ⟨[[Value.int 1], [Value.int 2]], [ColType.int], ["a"]⟩ 0).getitem
        (-1 : ℤ)).2 = Except.ok (Value.int 2) ∧ (-1 : ℤ) < 0 :=
  ⟨rfl, by decide⟩

/-- C5 (amended): `at(j)` follows Python list-index semantics on the cached
slice: it fails with `IndexError` iff `j < -length` or `j ≥ length`; for
`0 ≤ j < length` it returns element `j`; for `-length ≤ j < 0` it returns
element `length + j`. -/
theorem at_python_index_semantics (c : ColumnState) (j : ℤ) (hc : cacheInv c) :
    ((j < -((sliceOf c.table c.index).length : ℤ) ∨
        ((sliceOf c.table c.index).length : ℤ) ≤ j) →
      (c.getitem j).2 = Except.error PyErr.indexError) ∧
    (0 ≤ j → j < ((sliceOf c.table c.index).length : ℤ) →
      (c.getitem j).2 =
        Except.ok ((sliceOf c.table c.index).getD j.toNat Value.none)) ∧
    (-((sliceOf c.table c.index).length : ℤ) ≤ j → j < 0 →
      (c.getitem j).2 =
        Except.ok ((sliceOf c.table c.index).getD
          (j + (sliceOf c.table c.index).length).toNat Value.none)) := by
  have h2 : (c.getitem j).2 = pyIndex (sliceOf c.table c.index) j := by
    simp [ColumnState.getitem, dataOp_snd c hc]
  rw [h2]
  unfold pyIndex
  refine ⟨?_, ?_, ?_⟩
  · intro h
    rcases h with h | h
    · rw [if_neg (by omega), if_neg (by omega)]
    · rcases le_or_lt 0 j with h0 | h0
      · rw [if_pos h0, if_neg (by omega)]
      · rw [if_neg (by omega), if_neg (by omega)]
  · intro h0 hn
    rw [if_pos h0, if_pos hn]
  · intro hn h0
    rw [if_neg (by omega), if_pos (by omega)]

theorem at_python_index_semantics_witness :
    (((-1 : ℤ) < -(((sliceOf ⟨[[Value.int 1], [Value.int 2]], [ColType.int], ["a"]⟩ 0).length : ℤ)) ∨
        (((sliceOf ⟨[[Value.int 1], [Value.int 2]], [ColType.int], ["a"]⟩ 0).length : ℤ)) ≤ (-1 : ℤ)) →
      ((ColumnState.mk0 ⟨[[Value.int 1], [Value.int 2]], [ColType.int], ["a"]⟩ 0).getitem (-1 : ℤ)).2 =
        Except.error PyErr.indexError) ∧
    ((0 : ℤ) ≤ (-1 : ℤ) →
      (-1 : ℤ) < ((sliceOf ⟨[[Value.int 1], [Value.int 2]], [ColType.int], ["a"]⟩ 0).length : ℤ) →
      ((ColumnState.mk0 ⟨[[Value.int 1], [Value.int 2]], [ColType.int], ["a"]⟩ 0).getitem (-1 : ℤ)).2 =
        Except.ok ((sliceOf ⟨[[Value.int 1], [Value.int 2]], [ColType.int], ["a"]⟩ 0).getD
          (-1 : ℤ).toNat Value.none)) ∧
    (-(((sliceOf ⟨[[Value.int 1], [Value.int 2]], [ColType.int], ["a"]⟩ 0).length : ℤ)) ≤ (-1 : ℤ) →
      (-1 : ℤ) < 0 →
      ((ColumnState.mk0 ⟨[[Value.int 1], [Value.int 2]], [ColType.int], ["a"]⟩ 0).getitem (-1 : ℤ)).2 =
        Except.ok ((sliceOf ⟨[[Value.int 1], [Value.int 2]], [ColType.int], ["a"]⟩ 0).getD
          ((-1 : ℤ) + ((sliceOf ⟨[[Value.int 1], [Value.int 2]], [ColType.int], ["a"]⟩ 0).length : ℤ)).toNat
          Value.none)) :=
  at_python_index_semantics (ColumnState.mk0 ⟨[[Value.int 1], [Value.int 2]], [ColType.int], ["a"]⟩ 0)
    (-1) (fun d hd => by cases hd)

/-- `copy.deepcopy` of the row data.  Cell values are immutable, so the copy
has the same value; its role in the source is to sever aliasing so the
in-place slot updates touch only the copy — which the pure state-passing
embedding reflects by construction. -/
def pyDeepcopy (d : List (List Value)) : List (List Value) := d

/-- `Column.map(func, new_column_type, new_column_name)`: deep-copy the
owning table's rows, replace slot `index` of every copied row with
`func(row[index])`, optionally overwrite the type tag and/or name at that
slot (Python truthiness: a `None` type or name — and also an empty-string
name — leaves the original in place), and build a new table via
`self._table._fork` (modelled as the `Table` constructor).  The column state
is returned unchanged. -/
def ColumnState.mapOp (c : ColumnState) (f : Value → Value)
    (new_column_type : Option ColType) (new_column_name : Option String) :
    ColumnState × Table :=
  let data := (pyDeepcopy c.table.data).map
    (fun row => row.set c.index (f (rowGet row c.index)))
  let column_types :=
    match new_column_type with
    | some ct => c.table.column_types.set c.index ct
    | Option.none => c.table.column_types
  let column_names :=
    match new_column_name with
    | some s => if s = "" then c.table.column_names
                else c.table.column_names.set c.index s
    | Option.none => c.table.column_names
  (c, Table.mk data column_types column_names)

theorem getD_map_of_fix {g : List Value → List Value} (hg : g [] = [])
    (l : List (List Value)) (j : ℕ) :
    (l.map g).getD j [] = g (l.getD j []) := by
  induction l generalizing j with
  | nil => simp [hg]
  | cons a l ih =>
      cases j with
      | zero => simp
      | succ j => simpa using ih j

/-- C2: `map` never mutates the original: the column state (hence the owning
table's rows, column-type list, column-name list, and every cache field) is
returned unchanged, while each row of the returned table is the corresponding
original row with slot `index` replaced by `func` of its old value. -/
theorem map_preserves_original (c : ColumnState) (f : Value → Value)
    (nt : Option ColType) (nn : Option String) :
    (c.mapOp f nt nn).1 = c ∧
    (c.mapOp f nt nn).1.table.data = c.table.data ∧
    (c.mapOp f nt nn).1.table.column_types = c.table.column_types ∧
    (c.mapOp f nt nn).1.table.column_names = c.table.column_names ∧
    (c.mapOp f nt nn).1.cached_data = c.cached_data ∧
    ∀ j : ℕ, (c.mapOp f nt nn).2.data.getD j [] =
      (c.table.data.getD j []).set c.index (f (rowGet (c.table.data.getD j []) c.index)) := by
  refine ⟨rfl, rfl, rfl, rfl, rfl, ?_⟩
  intro j
  have h : (c.mapOp f nt nn).2.data =
      c.table.data.map (fun row => row.set c.index (f (rowGet row c.index))) := rfl
  rw [h]
  exact getD_map_of_fix (by simp [rowGet]) c.table.data j

/-- `Column.has_nulls()`: `None in self._data()` — element-wise `==` against
the null marker.  Stated over the column's data slice. -/
def Column.has_nulls (data : List Value) : Bool :=
  data.any (fun d => pyEq Value.none d)

/-- `Column._data_without_nulls()`: `[d for d in data if d is not None]`. -/
def withoutNulls (data : List Value) : List Value :=
  data.filter (fun d => !d.isNone)

/-- Precision of the default `decimal` context: every arithmetic result is
rounded to this many significant digits (rounding `ROUND_HALF_EVEN`). -/
def decPrec : ℕ := 28

/-- Number of base-10 digits of `n` (1 for 0). -/
def digitCount (n : ℕ) : ℕ := (Nat.toDigits 10 n).length

/-- The adjusted exponent of the positive fraction `na / nb`: the `d` with
`10 ^ d ≤ na / nb < 10 ^ (d + 1)`, placing the significant-digit window. -/
def adjExp (na nb : ℕ) : ℤ :=
  let d0 : ℤ := (digitCount na : ℤ) - (digitCount nb : ℤ)
  if 0 ≤ d0 then
    if nb * 10 ^ d0.toNat ≤ na then d0 else d0 - 1
  else
    if nb ≤ na * 10 ^ (-d0).toNat then d0 else d0 - 1

/-- Round the nonnegative fraction `a / b` (with `b > 0`) to the nearest
integer, ties to even (`ROUND_HALF_EVEN` on magnitudes). -/
def rhe (a b : ℕ) : ℕ :=
  let qt := a / b
  let rem := a % b
  if 2 * rem < b then qt
  else if b < 2 * rem then qt + 1
  else if qt % 2 = 0 then qt else qt + 1

/-- Round a rational to `decPrec` significant decimal digits, half-even: the
rounding the default `decimal` context applies to every arithmetic result.
Values representable in `decPrec` significant digits come back unchanged.
Built from integer arithmetic and one `mkRat` so concrete cases evaluate. -/
def roundDec (q : ℚ) : ℚ :=
  if q = 0 then 0
  else
    let na := q.num.natAbs
    let nb := q.den
    let sgn : ℤ := if 0 ≤ q.num then 1 else -1
    let shift : ℤ := adjExp na nb - (decPrec : ℤ) + 1
    if 0 ≤ shift then
      mkRat (sgn * (rhe na (nb * 10 ^ shift.toNat) : ℤ) * 10 ^ shift.toNat) 1
    else
      mkRat (sgn * (rhe (na * 10 ^ (-shift).toNat) nb : ℤ)) (10 ^ (-shift).toNat)

/-- Exact rational division written with a single `mkRat` so that it
evaluates on concrete arguments; `ratDiv_eq_div` below checks it is `/`. -/
def ratDiv (x y : ℚ) : ℚ :=
  mkRat (x.num * (y.den : ℤ) * (if 0 ≤ y.num then 1 else -1)) (x.den * y.num.natAbs)

theorem ratDiv_eq_div (x y : ℚ) : ratDiv x y = x / y := by
  rw [ratDiv, Rat.mkRat_eq_div]
  rcases eq_or_ne y.num 0 with hC | hC
  · have hy : y = 0 := by rwa [Rat.num_eq_zero] at hC
    rw [hy] at hC ⊢
    rw [hC]
    simp
  · have hy : y ≠ 0 := fun h => hC (by rw [h]; rfl)
    have hs : ((y.num.natAbs : ℕ) : ℚ) =
        (if 0 ≤ y.num then (1 : ℚ) else -1) * (y.num : ℚ) := by
      rw [Int.cast_natAbs]
      rcases le_or_lt 0 y.num with h | h
      · rw [if_pos h, abs_of_nonneg h]
        ring
      · rw [if_neg (not_le.mpr h), abs_of_neg h]
        push_cast
        ring
    have hden1 : ((x.den * y.num.natAbs : ℕ) : ℚ) ≠ 0 := by
      push_cast
      refine mul_ne_zero ?_ ?_
      · exact (Nat.cast_ne_zero (R := ℚ)).mpr x.den_nz
      · exact (Nat.cast_ne_zero (R := ℚ)).mpr (Int.natAbs_ne_zero.mpr hC)
    rw [div_eq_div_iff hden1 hy]
    have hBx := Rat.den_mul_eq_num x
    have hDy := Rat.den_mul_eq_num y
    push_cast
    rw [hs]
    linear_combination (((x.num : ℚ)) * (if 0 ≤ y.num then (1 : ℚ) else -1)) * hDy -
      ((if 0 ≤ y.num then (1 : ℚ) else -1) * ((y.num : ℚ))) * hBx

/-- `Decimal` addition under the default context: exact sum, then rounded. -/
def decAdd (x y : ℚ) : ℚ := roundDec (x + y)

/-- `Decimal` subtraction under the default context. -/
def decSub (x y : ℚ) : ℚ := roundDec (x - y)

/-- `Decimal` squaring (`** 2`) under the default context. -/
def decPow2 (x : ℚ) : ℚ := roundDec (x ^ 2)

/-- `Decimal` division under the default context: the exact quotient rounded
to 28 significant digits. -/
def decDiv (x y : ℚ) : ℚ := roundDec (ratDiv x y)

/-- Python `+` on cell values as the statistics exercise it: `int + int` is
exact integer addition, any mix with a `Decimal` is a `Decimal` whose value
is the context-rounded sum; adding a non-number raises `TypeError`. -/
def pyAdd (a b : Value) : Except PyErr Value :=
  match a, b with
  | .int m, .int n => Except.ok (Value.int (m + n))
  | .int m, .decimal q => Except.ok (Value.decimal (decAdd (m : ℚ) q))
  | .decimal p, .int n => Except.ok (Value.decimal (decAdd p (n : ℚ)))
  | .decimal p, .decimal q => Except.ok (Value.decimal (decAdd p q))
  | _, _ => Except.error .typeError

/-- The pure value of `pyAdd` on numbers (used to state what the folds
compute). -/
def addNum (a b : Value) : Value :=
  match a, b with
  | .int m, .int n => Value.int (m + n)
  | .int m, .decimal q => Value.decimal (decAdd (m : ℚ) q)
  | .decimal p, .int n => Value.decimal (decAdd p (n : ℚ))
  | .decimal p, .decimal q => Value.decimal (decAdd p q)
  | _, _ => Value.none

/-- Python `sum(xs)`: left fold of `+` starting from the `int` `0`; in
particular `sum([])` is the integer `0`. -/
def pySum (l : List Value) : Except PyErr Value :=
  l.foldlM pyAdd (Value.int 0)

/-- Python `<` restricted to numbers (the statistics only compare values of a
null-free numeric column); comparing a non-number is modelled as `TypeError`. -/
def pyLt (a b : Value) : Except PyErr Bool :=
  match a.toQ, b.toQ with
  | some p, some q => Except.ok (decide (p < q))
  | _, _ => Except.error .typeError

/-- Python `min(xs)`: `ValueError` on an empty sequence, else the running
fold keeping the first minimal element. -/
def pyMin (l : List Value) : Except PyErr Value :=
  match l with
  | [] => Except.error .valueError
  | x :: xs => xs.foldlM (fun best y => do
      let lt ← pyLt y best
      pure (if lt then y else best)) x

/-- Python `max(xs)`: `ValueError` on an empty sequence, else the running
fold keeping the first maximal element. -/
def pyMax (l : List Value) : Except PyErr Value :=
  match l with
  | [] => Except.error .valueError
  | x :: xs => xs.foldlM (fun best y => do
      let gt ← pyLt best y
      pure (if gt then y else best)) x

/-- `NumberColumn.sum()`: `sum(self._data_without_nulls())`. -/
def NumberColumn.sum (data : List Value) : Except PyErr Value :=
  pySum (withoutNulls data)

/-- `NumberColumn.min()`: `min(self._data_without_nulls())`. -/
def NumberColumn.min (data : List Value) : Except PyErr Value :=
  pyMin (withoutNulls data)

/-- `NumberColumn.max()`: `max(self._data_without_nulls())`. -/
def NumberColumn.max (data : List Value) : Except PyErr Value :=
  pyMax (withoutNulls data)

/-- C4 counterexample: on a column whose values are entirely null, `sum()`
does not fail — Python's `sum` over the empty nulls-removed list returns the
integer `0`. -/
theorem sum_all_null_returns_zero :
    NumberColumn.sum [Value.none] = Except.ok (Value.int 0) := rfl

/-- C4 (amended): on a column whose values are entirely null the
nulls-removed slice is empty, so `min()` and `max()` fail with the
empty-sequence reduction failure (`ValueError`), while `sum()` returns the
empty-sum identity, the integer `0`. -/
theorem aggregates_on_all_null_column (data : List Value)
    (h : ∀ v ∈ data, v = Value.none) :
    NumberColumn.sum data = Except.ok (Value.int 0) ∧
    NumberColumn.min data = Except.error PyErr.valueError ∧
    NumberColumn.max data = Except.error PyErr.valueError := by
  have hw : withoutNulls data = [] := by
    refine List.filter_eq_nil_iff.mpr ?_
    intro a ha
    rw [h a ha]
    simp [Value.isNone]
  refine ⟨?_, ?_, ?_⟩
  · simp [NumberColumn.sum, hw, pySum]; rfl
  · simp [NumberColumn.min, hw, pyMin]
  · simp [NumberColumn.max, hw, pyMax]

theorem aggregates_on_all_null_column_witness :
    NumberColumn.sum [Value.none, Value.none] = Except.ok (Value.int 0) ∧
    NumberColumn.min [Value.none, Value.none] = Except.error PyErr.valueError ∧
    NumberColumn.max [Value.none, Value.none] = Except.error PyErr.valueError :=
  aggregates_on_all_null_column [Value.none, Value.none] (by intro v hv; simpa using hv)

/-- The `no_null_computations` guard wired into `mean()`:
`Decimal(self.sum()) / len(self)`.  `Decimal(int)` is exact, the division is
context-rounded; division by the length fails on an empty column (the
division-by-zero failure of `decimal`, labelled `zeroDivision` in the coarse
error model). -/
def NumberColumn.mean (data : List Value) : Except PyErr Value :=
  if Column.has_nulls data then Except.error .nullComputation
  else do
    let s ← NumberColumn.sum data
    if data.length = 0 then Except.error .zeroDivision
    else Except.ok (Value.decimal (decDiv s.toQd (data.length : ℚ)))

/-- `Column._data_sorted()`: `sorted(self._data())`.  Only the numeric order
is modelled (`median` reaches the sort only on null-free numeric data);
`List.mergeSort` is stable, like Python's sort. -/
def pySorted (data : List Value) : List Value :=
  data.mergeSort (fun a b => decide (a.toQd ≤ b.toQd))

/-- `median()` under its `no_null_computations` guard: sort, then take the
middle element (odd length, Python integer division `((length + 1) / 2) - 1`)
or `Decimal(a + b) / 2` for the two middle elements (even length); that
division is context-rounded like every `Decimal` operation.  The index
arithmetic is carried out in `ℤ` exactly as Python does, so on an empty
column `length / 2 - 1` is `-1` and the list access governs the outcome. -/
def NumberColumn.median (data : List Value) : Except PyErr Value :=
  if Column.has_nulls data then Except.error .nullComputation
  else
    let s := pySorted data
    let length := s.length
    if length % 2 = 1 then
      pyIndex s ((((length + 1) / 2 : ℕ) : ℤ) - 1)
    else do
      let a ← pyIndex s ((((length / 2 : ℕ)) : ℤ) - 1)
      let b ← pyIndex s (((length / 2 : ℕ) : ℤ))
      let ab ← pyAdd a b
      Except.ok (Value.decimal (decDiv ab.toQd 2))

/-- One step of `counts[d] += 1` on a `defaultdict(int)` modelled as an
association list in insertion order: increment the entry whose key compares
`==` to `v`, or append a fresh `(v, 1)` entry. -/
def bump (acc : List (Value × ℕ)) (v : Value) : List (Value × ℕ) :=
  if acc.any (fun p => pyEq p.1 v) then
    acc.map (fun p => if pyEq p.1 v then (p.1, p.2 + 1) else p)
  else acc ++ [(v, 1)]

/-- The occurrence-count dictionary built by `counts()` and `mode()`:
`for d in data: counts[d] += 1`. -/
def countsAssoc (data : List Value) : List (Value × ℕ) :=
  data.foldl bump []

/-- `max(state.keys(), key=lambda x: state[x])`: `ValueError` on an empty
dictionary, else the first key of maximal count in iteration order. -/
def pyMaxByCount (assoc : List (Value × ℕ)) : Except PyErr Value :=
  match assoc with
  | [] => Except.error .valueError
  | p :: ps => Except.ok (ps.foldl (fun best q => if best.2 < q.2 then q else best) p).1

/-- `mode()` under its `no_null_computations` guard: the value with the
highest occurrence count. -/
def NumberColumn.mode (data : List Value) : Except PyErr Value :=
  if Column.has_nulls data then Except.error .nullComputation
  else pyMaxByCount (countsAssoc data)

/-- `variance()` under its `no_null_computations` guard:
`sum((n - self.mean()) ** 2 for n in data) / len(data)` — population
variance, divisor `len(data)`; each subtraction, squaring, running addition
of `sum` (which starts from the int `0`) and the final division is a
`Decimal` operation rounded to context precision.  `self.mean()` is
re-evaluated per element in the source; it is pure, so it is evaluated
inside the traversal here too. -/
def NumberColumn.variance (data : List Value) : Except PyErr Value :=
  if Column.has_nulls data then Except.error .nullComputation
  else do
    let terms ← data.mapM (fun n => do
      let m ← NumberColumn.mean data
      match n.toQ with
      | some q => Except.ok (decPow2 (decSub q m.toQd))
      | _ => Except.error PyErr.typeError)
    if data.length = 0 then Except.error .zeroDivision
    else Except.ok (Value.decimal (decDiv (terms.foldl decAdd 0) (data.length : ℚ)))

/-- Stand-in for `Decimal.sqrt()`, which returns a context-precision
approximation of the square root.  Only definedness matters to the theorems
below; no theorem depends on the approximate digits, so a crude
integer-square-root quotient is used. -/
def decimalSqrtApprox (q : ℚ) : ℚ :=
  if q ≤ 0 then 0 else (Nat.sqrt q.num.toNat : ℚ) / (Nat.sqrt q.den : ℚ)

/-- `stdev()` under its `no_null_computations` guard: `self.variance().sqrt()`. -/
def NumberColumn.stdev (data : List Value) : Except PyErr Value :=
  if Column.has_nulls data then Except.error .nullComputation
  else do
    let v ← NumberColumn.variance data
    Except.ok (Value.decimal (decimalSqrtApprox v.toQd))

theorem except_ok_bind {α β : Type} (v : α) (f : α → Except PyErr β) :
    (Except.ok v >>= f) = f v := rfl

theorem except_error_bind {α β : Type} (e : PyErr) (f : α → Except PyErr β) :
    ((Except.error e : Except PyErr α) >>= f) = Except.error e := rfl

theorem except_bind_ne {α β : Type} (X : Except PyErr α) (f : α → Except PyErr β) (e : PyErr)
    (hX : X ≠ Except.error e) (hf : ∀ v, f v ≠ Except.error e) :
    (X >>= f) ≠ Except.error e := by
  cases X with
  | error e2 =>
      rw [except_error_bind]
      intro h
      injection h with he
      exact hX (by rw [he])
  | ok v =>
      rw [except_ok_bind]
      exact hf v

theorem except_pure {α : Type} (v : α) : (pure v : Except PyErr α) = Except.ok v := rfl

theorem mapM_nil_eq {α : Type} (f : Value → Except PyErr α) :
    ([] : List Value).mapM f = Except.ok [] := rfl

theorem foldlM_ne_err {α : Type} (f : α → Value → Except PyErr α) (e : PyErr)
    (hf : ∀ acc v, f acc v ≠ Except.error e) :
    ∀ (l : List Value) (acc : α), l.foldlM f acc ≠ Except.error e
  | [], acc => by simp [List.foldlM, except_pure]
  | x :: xs, acc => by
      show (f acc x >>= fun b => xs.foldlM f b) ≠ Except.error e
      exact except_bind_ne _ _ _ (hf acc x) (fun b => foldlM_ne_err f e hf xs b)

theorem mapM_ne_err {α : Type} (f : Value → Except PyErr α) (e : PyErr)
    (hf : ∀ v, f v ≠ Except.error e) :
    ∀ l : List Value, l.mapM f ≠ Except.error e
  | [] => by intro h; exact Except.noConfusion h
  | x :: xs => by
      rw [List.mapM_cons]
      refine except_bind_ne _ _ _ (hf x) (fun v => ?_)
      refine except_bind_ne _ _ _ (mapM_ne_err f e hf xs) (fun vs => ?_)
      simp [except_pure]

theorem mapM_ok_of {α : Type} (f : Value → Except PyErr α) (g : Value → α) :
    ∀ l : List Value, (∀ x ∈ l, f x = Except.ok (g x)) →
      l.mapM f = Except.ok (l.map g)
  | [], _ => rfl
  | x :: xs, h => by
      rw [List.mapM_cons, h x (by simp), except_ok_bind,
        mapM_ok_of f g xs (fun y hy => h y (by simp [hy])), except_ok_bind]
      simp [except_pure]

theorem pyAdd_eq_addNum {a b : Value} (ha : a.isNum = true) (hb : b.isNum = true) :
    pyAdd a b = Except.ok (addNum a b) ∧ (addNum a b).isNum = true := by
  cases a <;> cases b <;>
    simp_all [pyAdd, addNum, Value.isNum]

theorem pyAdd_ne_null (a b : Value) : pyAdd a b ≠ Except.error PyErr.nullComputation := by
  cases a <;> cases b <;> simp [pyAdd]

theorem pyLt_ne_null (a b : Value) : pyLt a b ≠ Except.error PyErr.nullComputation := by
  unfold pyLt
  cases a.toQ <;> cases b.toQ <;> simp

theorem foldlM_pyAdd_ok :
    ∀ (l : List Value) (acc : Value), acc.isNum = true → (∀ v ∈ l, v.isNum = true) →
      l.foldlM pyAdd acc = Except.ok (l.foldl addNum acc) ∧
        (l.foldl addNum acc).isNum = true
  | [], acc, ha, _ => ⟨by simp [List.foldlM, except_pure], ha⟩
  | x :: xs, acc, ha, hl => by
      obtain ⟨heq, hnum2⟩ := pyAdd_eq_addNum ha (hl x (by simp))
      obtain ⟨ih1, ih2⟩ :=
        foldlM_pyAdd_ok xs (addNum acc x) hnum2 (fun v hv => hl v (by simp [hv]))
      refine ⟨?_, ?_⟩
      · show (pyAdd acc x >>= fun b => xs.foldlM pyAdd b) = _
        rw [heq, except_ok_bind, ih1]
        rfl
      · show ((x :: xs).foldl addNum acc).isNum = true
        simpa using ih2

theorem hasNulls_false_of_num {data : List Value} (h : ∀ v ∈ data, v.isNum = true) :
    Column.has_nulls data = false := by
  rw [Column.has_nulls, List.any_eq_false]
  intro v hv
  have := h v hv
  cases v <;> simp_all [pyEq, Value.isNum]

theorem withoutNulls_eq_self {data : List Value} (h : ∀ v ∈ data, v.isNum = true) :
    withoutNulls data = data := by
  rw [withoutNulls, List.filter_eq_self]
  intro v hv
  have := h v hv
  cases v <;> simp_all [Value.isNum, Value.isNone]

theorem sum_ne_null (data : List Value) :
    NumberColumn.sum data ≠ Except.error PyErr.nullComputation :=
  foldlM_ne_err pyAdd PyErr.nullComputation (fun a b => pyAdd_ne_null a b) _ _

theorem mean_eq (data : List Value) (hnum : ∀ v ∈ data, v.isNum = true)
    (hne : data ≠ []) :
    NumberColumn.mean data = Except.ok (Value.decimal
      (decDiv (data.foldl addNum (Value.int 0)).toQd (data.length : ℚ))) := by
  unfold NumberColumn.mean
  rw [if_neg (by simp [hasNulls_false_of_num hnum])]
  obtain ⟨hfold, _⟩ := foldlM_pyAdd_ok data (Value.int 0) rfl hnum
  have hs : NumberColumn.sum data = Except.ok (data.foldl addNum (Value.int 0)) := by
    unfold NumberColumn.sum pySum
    rw [withoutNulls_eq_self hnum]
    exact hfold
  show (NumberColumn.sum data >>= fun s =>
      if data.length = 0 then Except.error PyErr.zeroDivision
      else Except.ok (Value.decimal (decDiv s.toQd (data.length : ℚ)))) = _
  rw [hs, except_ok_bind, if_neg (by simpa using hne)]

theorem mean_ne_null (data : List Value) (h : Column.has_nulls data = false) :
    NumberColumn.mean data ≠ Except.error PyErr.nullComputation := by
  unfold NumberColumn.mean
  rw [if_neg (by simp [h])]
  refine except_bind_ne _ _ _ (sum_ne_null data) (fun s => ?_)
  split_ifs <;> simp

theorem pyIndex_ne_null (l : List Value) (j : ℤ) :
    pyIndex l j ≠ Except.error PyErr.nullComputation := by
  unfold pyIndex
  dsimp only
  split_ifs <;> simp

theorem pyIndex_ok (l : List Value) (j : ℤ) (h0 : 0 ≤ j) (h1 : j < (l.length : ℤ)) :
    pyIndex l j = Except.ok (l.getD j.toNat Value.none) := by
  unfold pyIndex
  rw [if_pos h0, if_pos h1]

theorem median_ne_null (data : List Value) (h : Column.has_nulls data = false) :
    NumberColumn.median data ≠ Except.error PyErr.nullComputation := by
  unfold NumberColumn.median
  rw [if_neg (by simp [h])]
  dsimp only
  split_ifs with hodd
  · exact pyIndex_ne_null _ _
  · refine except_bind_ne _ _ _ (pyIndex_ne_null _ _) (fun a => ?_)
    refine except_bind_ne _ _ _ (pyIndex_ne_null _ _) (fun b => ?_)
    refine except_bind_ne _ _ _ (pyAdd_ne_null a b) (fun ab => ?_)
    simp

theorem pyMaxByCount_ne_null (assoc : List (Value × ℕ)) :
    pyMaxByCount assoc ≠ Except.error PyErr.nullComputation := by
  cases assoc <;> simp [pyMaxByCount]

theorem mode_ne_null (data : List Value) (h : Column.has_nulls data = false) :
    NumberColumn.mode data ≠ Except.error PyErr.nullComputation := by
  unfold NumberColumn.mode
  rw [if_neg (by simp [h])]
  exact pyMaxByCount_ne_null _

theorem variance_ne_null (data : List Value) (h : Column.has_nulls data = false) :
    NumberColumn.variance data ≠ Except.error PyErr.nullComputation := by
  unfold NumberColumn.variance
  rw [if_neg (by simp [h])]
  refine except_bind_ne _ _ _ ?_ (fun terms => ?_)
  · refine mapM_ne_err _ _ (fun n => ?_) data
    refine except_bind_ne _ _ _ (mean_ne_null data h) (fun m => ?_)
    rcases hq : n.toQ with _ | q <;> simp [hq]
  · split_ifs <;> simp

theorem stdev_ne_null (data : List Value) (h : Column.has_nulls data = false) :
    NumberColumn.stdev data ≠ Except.error PyErr.nullComputation := by
  unfold NumberColumn.stdev
  rw [if_neg (by simp [h])]
  exact except_bind_ne _ _ _ (variance_ne_null data h) (fun v => by simp)

theorem pySorted_perm (data : List Value) : (pySorted data).Perm data :=
  List.mergeSort_perm data _

theorem pySorted_length (data : List Value) : (pySorted data).length = data.length :=
  (pySorted_perm data).length_eq

theorem pySorted_num {data : List Value} (hnum : ∀ v ∈ data, v.isNum = true) :
    ∀ v ∈ pySorted data, v.isNum = true :=
  fun v hv => hnum v ((pySorted_perm data).mem_iff.mp hv)

theorem getD_isNum {l : List Value} (hnum : ∀ v ∈ l, v.isNum = true) {j : ℕ}
    (hj : j < l.length) : (l.getD j Value.none).isNum = true := by
  rw [List.getD_eq_getElem l Value.none hj]
  exact hnum _ (List.getElem_mem hj)

theorem median_odd_eq (data : List Value) (hnum : ∀ v ∈ data, v.isNum = true)
    (hodd : data.length % 2 = 1) :
    NumberColumn.median data =
      Except.ok ((pySorted data).getD ((data.length - 1) / 2) Value.none) := by
  have hlen := pySorted_length data
  unfold NumberColumn.median
  rw [if_neg (by simp [hasNulls_false_of_num hnum])]
  dsimp only
  rw [hlen, if_pos hodd]
  rw [pyIndex_ok _ _ (by omega) (by rw [hlen]; omega)]
  have hj : ((((data.length + 1) / 2 : ℕ) : ℤ) - 1).toNat = (data.length - 1) / 2 := by
    omega
  rw [hj]

theorem median_even_eq (data : List Value) (hnum : ∀ v ∈ data, v.isNum = true)
    (hne : data ≠ []) (heven : data.length % 2 = 0) :
    NumberColumn.median data = Except.ok (Value.decimal
      (decDiv (addNum ((pySorted data).getD (data.length / 2 - 1) Value.none)
        ((pySorted data).getD (data.length / 2) Value.none)).toQd 2)) := by
  have hlen := pySorted_length data
  have hpos : 0 < data.length := List.length_pos.mpr hne
  unfold NumberColumn.median
  rw [if_neg (by simp [hasNulls_false_of_num hnum])]
  dsimp only
  rw [hlen, if_neg (by omega)]
  rw [pyIndex_ok _ _ (by omega) (by rw [hlen]; omega), except_ok_bind]
  rw [pyIndex_ok _ _ (by omega) (by rw [hlen]; omega), except_ok_bind]
  have hn2 : (((data.length / 2 : ℕ) : ℤ) - 1).toNat = data.length / 2 - 1 := by omega
  have hn3 : (((data.length / 2 : ℕ) : ℤ)).toNat = data.length / 2 := by omega
  rw [hn2, hn3]
  have han : ((pySorted data).getD (data.length / 2 - 1) Value.none).isNum = true :=
    getD_isNum (pySorted_num hnum) (by omega)
  have hbn : ((pySorted data).getD (data.length / 2) Value.none).isNum = true :=
    getD_isNum (pySorted_num hnum) (by omega)
  obtain ⟨heq, _⟩ := pyAdd_eq_addNum han hbn
  rw [heq, except_ok_bind]

theorem bump_ne_nil (acc : List (Value × ℕ)) (v : Value) : bump acc v ≠ [] := by
  unfold bump
  split_ifs with h
  · intro hmap
    rw [List.map_eq_nil_iff] at hmap
    rw [hmap] at h
    simp at h
  · simp

theorem foldl_bump_ne_nil :
    ∀ (l : List Value) (acc : List (Value × ℕ)), acc ≠ [] → l.foldl bump acc ≠ []
  | [], _, h => h
  | x :: xs, acc, _ => foldl_bump_ne_nil xs (bump acc x) (bump_ne_nil acc x)

theorem countsAssoc_ne_nil (data : List Value) (h : data ≠ []) : countsAssoc data ≠ [] := by
  cases data with
  | nil => exact absurd rfl h
  | cons x xs => exact foldl_bump_ne_nil xs (bump [] x) (bump_ne_nil [] x)

theorem mode_ok_exists (data : List Value) (h : Column.has_nulls data = false)
    (hne : data ≠ []) : ∃ v, NumberColumn.mode data = Except.ok v := by
  unfold NumberColumn.mode
  rw [if_neg (by simp [h])]
  rcases hassoc : countsAssoc data with _ | ⟨p, ps⟩
  · exact absurd hassoc (countsAssoc_ne_nil data hne)
  · exact ⟨_, rfl⟩

theorem variance_eq (data : List Value) (hnum : ∀ v ∈ data, v.isNum = true)
    (hne : data ≠ []) :
    NumberColumn.variance data = Except.ok (Value.decimal
      (decDiv ((data.map (fun n => decPow2 (decSub n.toQd
          (decDiv (data.foldl addNum (Value.int 0)).toQd (data.length : ℚ))))).foldl
          decAdd 0)
        (data.length : ℚ))) := by
  unfold NumberColumn.variance
  rw [if_neg (by simp [hasNulls_false_of_num hnum])]
  rw [mapM_ok_of _
    (fun n => decPow2 (decSub n.toQd
      (decDiv (data.foldl addNum (Value.int 0)).toQd (data.length : ℚ)))) data ?inner]
  · rw [except_ok_bind, if_neg (by simpa using hne)]
  case inner =>
    intro x hx
    rw [mean_eq data hnum hne, except_ok_bind]
    rcases hq : x.toQ with _ | q
    · have := hnum x hx
      cases x <;> simp_all [Value.isNum, Value.toQ]
    · have hxq : x.toQd = q := by rw [Value.toQd, hq]; rfl
      simp only [hq]
      rw [← hxq]
      rfl

theorem stdev_ok_exists (data : List Value) (hnum : ∀ v ∈ data, v.isNum = true)
    (hne : data ≠ []) : ∃ v, NumberColumn.stdev data = Except.ok v := by
  unfold NumberColumn.stdev
  rw [if_neg (by simp [hasNulls_false_of_num hnum]),
    variance_eq data hnum hne, except_ok_bind]
  exact ⟨_, rfl⟩

/-- C3 counterexample: the empty numeric column contains no nulls, yet
`mean()` does not succeed — `Decimal(self.sum()) / len(self)` divides by
zero.  "No nulls" alone does not guarantee success. -/
theorem mean_empty_column_no_nulls_fails :
    Column.has_nulls ([] : List Value) = false ∧
    NumberColumn.mean ([] : List Value) = Except.error PyErr.zeroDivision :=
  ⟨rfl, rfl⟩

/-- C3 (amended): each of `mean`/`median`/`mode`/`variance`/`stdev` raises
`NullComputationError` iff the column contains a null (the guard fires before
any computation, and no other code path produces that error); on a nonempty
all-numeric column each of the five succeeds. -/
theorem null_sensitive_stats_raise_iff (data : List Value) :
    (Column.has_nulls data = true →
      NumberColumn.mean data = Except.error PyErr.nullComputation ∧
      NumberColumn.median data = Except.error PyErr.nullComputation ∧
      NumberColumn.mode data = Except.error PyErr.nullComputation ∧
      NumberColumn.variance data = Except.error PyErr.nullComputation ∧
      NumberColumn.stdev data = Except.error PyErr.nullComputation) ∧
    (Column.has_nulls data = false →
      NumberColumn.mean data ≠ Except.error PyErr.nullComputation ∧
      NumberColumn.median data ≠ Except.error PyErr.nullComputation ∧
      NumberColumn.mode data ≠ Except.error PyErr.nullComputation ∧
      NumberColumn.variance data ≠ Except.error PyErr.nullComputation ∧
      NumberColumn.stdev data ≠ Except.error PyErr.nullComputation) ∧
    ((∀ v ∈ data, v.isNum = true) → data ≠ [] →
      (∃ v, NumberColumn.mean data = Except.ok v) ∧
      (∃ v, NumberColumn.median data = Except.ok v) ∧
      (∃ v, NumberColumn.mode data = Except.ok v) ∧
      (∃ v, NumberColumn.variance data = Except.ok v) ∧
      (∃ v, NumberColumn.stdev data = Except.ok v)) := by
  refine ⟨fun h => ?_, fun h => ?_, fun hnum hne => ?_⟩
  · exact ⟨by simp [NumberColumn.mean, h], by simp [NumberColumn.median, h],
      by simp [NumberColumn.mode, h], by simp [NumberColumn.variance, h],
      by simp [NumberColumn.stdev, h]⟩
  · exact ⟨mean_ne_null data h, median_ne_null data h, mode_ne_null data h,
      variance_ne_null data h, stdev_ne_null data h⟩
  · refine ⟨⟨_, mean_eq data hnum hne⟩, ?_,
      mode_ok_exists data (hasNulls_false_of_num hnum) hne,
      ⟨_, variance_eq data hnum hne⟩, stdev_ok_exists data hnum hne⟩
    rcases Nat.even_or_odd data.length with he | ho
    · exact ⟨_, median_even_eq data hnum hne (Nat.even_iff.mp he)⟩
    · exact ⟨_, median_odd_eq data hnum (Nat.odd_iff.mp ho)⟩

theorem null_sensitive_stats_raise_iff_witness :
    NumberColumn.mean [Value.int 1, Value.none] = Except.error PyErr.nullComputation ∧
    (∃ v, NumberColumn.mean [Value.int 1, Value.int 3] = Except.ok v) :=
  ⟨((null_sensitive_stats_raise_iff [Value.int 1, Value.none]).1 (by decide)).1,
   ((null_sensitive_stats_raise_iff [Value.int 1, Value.int 3]).2.2
      (by decide) (by decide)).1⟩

/-- C7 counterexample: the even-length median is not the exact average of
the two middle elements — on `[10^30, 10^30 + 2]` the source computes
`Decimal(a + b) / 2` under the 28-significant-digit context and returns
`1.000000000000000000000000000E+30`, not the exact average `10^30 + 1`. -/
theorem median_even_average_rounds :
    NumberColumn.median [Value.int (10 ^ 30), Value.int (10 ^ 30 + 2)] =
      Except.ok (Value.decimal (mkRat (10 ^ 30) 1)) ∧
    NumberColumn.median [Value.int (10 ^ 30), Value.int (10 ^ 30 + 2)] ≠
      Except.ok (Value.decimal
        (((Value.int (10 ^ 30)).toQd + (Value.int (10 ^ 30 + 2)).toQd) / 2)) := by
  have hs : pySorted [Value.int (10 ^ 30), Value.int (10 ^ 30 + 2)] =
      [Value.int (10 ^ 30), Value.int (10 ^ 30 + 2)] :=
    List.mergeSort_of_sorted (by decide)
  have hmed := median_even_eq [Value.int (10 ^ 30), Value.int (10 ^ 30 + 2)]
    (by decide) (by decide) (by decide)
  rw [hs] at hmed
  have h1 : NumberColumn.median [Value.int (10 ^ 30), Value.int (10 ^ 30 + 2)] =
      Except.ok (Value.decimal (mkRat (10 ^ 30) 1)) := by
    rw [hmed]
    rfl
  refine ⟨h1, ?_⟩
  rw [h1]
  intro hcontra
  injection hcontra with hv
  injection hv with hq
  rw [Rat.mkRat_eq_div] at hq
  norm_num [Value.toQd, Value.toQ] at hq

/-- C7 (amended): on a null-free nonempty numeric column, `median()` works
on the ascending sort of the data (a permutation of the data that is
pairwise ordered), returns the single middle element for odd length, and for
even length returns `Decimal(a + b) / 2` — the average of the two middle
elements rounded to the context's 28 significant digits, exact whenever the
average is representable in that precision; in particular `[1,3,5] ↦ 3` and
`[1,2,3,4] ↦ 2.5`. -/
theorem median_sorts_and_takes_middle (data : List Value)
    (hnum : ∀ v ∈ data, v.isNum = true) (hne : data ≠ []) :
    (pySorted data).Perm data ∧
    List.Pairwise (fun a b : Value => a.toQd ≤ b.toQd) (pySorted data) ∧
    (data.length % 2 = 1 →
      NumberColumn.median data =
        Except.ok ((pySorted data).getD ((data.length - 1) / 2) Value.none)) ∧
    (data.length % 2 = 0 →
      NumberColumn.median data =
        Except.ok (Value.decimal
          (decDiv (addNum ((pySorted data).getD (data.length / 2 - 1) Value.none)
            ((pySorted data).getD (data.length / 2) Value.none)).toQd 2))) ∧
    NumberColumn.median [Value.int 1, Value.int 3, Value.int 5] =
      Except.ok (Value.int 3) ∧
    NumberColumn.median [Value.int 1, Value.int 2, Value.int 3, Value.int 4] =
      Except.ok (Value.decimal (5 / 2)) := by
  have hs1 : pySorted [Value.int 1, Value.int 3, Value.int 5] =
      [Value.int 1, Value.int 3, Value.int 5] :=
    List.mergeSort_of_sorted (by decide)
  have hs2 : pySorted [Value.int 1, Value.int 2, Value.int 3, Value.int 4] =
      [Value.int 1, Value.int 2, Value.int 3, Value.int 4] :=
    List.mergeSort_of_sorted (by decide)
  have hm1 : NumberColumn.median [Value.int 1, Value.int 3, Value.int 5] =
      Except.ok (Value.int 3) := by
    rw [median_odd_eq _ (by decide) (by decide), hs1]
    rfl
  have hm2 : NumberColumn.median [Value.int 1, Value.int 2, Value.int 3, Value.int 4] =
      Except.ok (Value.decimal (5 / 2)) := by
    rw [median_even_eq _ (by decide) (by decide) (by decide), hs2]
    have h52 : (mkRat 5 2 : ℚ) = 5 / 2 := by norm_num [Rat.mkRat_eq_div]
    rw [← h52]
    rfl
  refine ⟨pySorted_perm data, ?_, fun ho => median_odd_eq data hnum ho,
    fun he => median_even_eq data hnum hne he, hm1, hm2⟩
  have htr : ∀ a b c : Value, decide (a.toQd ≤ b.toQd) → decide (b.toQd ≤ c.toQd) →
      decide (a.toQd ≤ c.toQd) := by
    intro a b c hab hbc
    exact decide_eq_true (le_trans (of_decide_eq_true hab) (of_decide_eq_true hbc))
  have hto : ∀ a b : Value, decide (a.toQd ≤ b.toQd) || decide (b.toQd ≤ a.toQd) := by
    intro a b
    rcases le_total a.toQd b.toQd with h | h <;> simp [h]
  have hp := List.sorted_mergeSort htr hto data
  exact hp.imp (fun hab => of_decide_eq_true hab)

theorem median_sorts_and_takes_middle_witness :
    NumberColumn.median [Value.int 1, Value.int 3, Value.int 5] =
      Except.ok (Value.int 3) :=
  (median_sorts_and_takes_middle [Value.int 1, Value.int 3, Value.int 5]
    (by decide) (by decide)).2.2.2.2.1

/-- The mean exactly as the spec words it: sum divided by count. -/
def specMean (qs : List ℚ) : ℚ := qs.sum / qs.length

/-- C9 counterexample: `mean()` is not exact — on the column `[1,1,2]` the
source computes `Decimal(4) / 3` under the 28-significant-digit context and
returns `1.333333333333333333333333333`, not the exact sum/count `4/3` of
the spec's formula (`specMean`). -/
theorem mean_context_rounding_not_exact :
    NumberColumn.mean [Value.int 1, Value.int 1, Value.int 2] =
      Except.ok (Value.decimal (mkRat 1333333333333333333333333333 (10 ^ 27))) ∧
    NumberColumn.mean [Value.int 1, Value.int 1, Value.int 2] ≠
      Except.ok (Value.decimal
        (specMean ([Value.int 1, Value.int 1, Value.int 2].map Value.toQd))) := by
  have h1 : NumberColumn.mean [Value.int 1, Value.int 1, Value.int 2] =
      Except.ok (Value.decimal (mkRat 1333333333333333333333333333 (10 ^ 27))) := rfl
  refine ⟨h1, ?_⟩
  rw [h1]
  intro hcontra
  injection hcontra with hv
  injection hv with hq
  rw [Rat.mkRat_eq_div] at hq
  norm_num [specMean, Value.toQd, Value.toQ] at hq

theorem foldl_addNum_int :
    ∀ (l : List Value) (acc : ℤ), (∀ v ∈ l, ∃ n : ℤ, v = Value.int n) →
      (l.foldl addNum (Value.int acc)).toQd = (acc : ℚ) + (l.map Value.toQd).sum
  | [], acc, _ => by simp [Value.toQd, Value.toQ]
  | x :: xs, acc, h => by
      obtain ⟨n, hn⟩ := h x (by simp)
      subst hn
      have ih := foldl_addNum_int xs (acc + n) (fun v hv => h v (by simp [hv]))
      show (xs.foldl addNum (Value.int (acc + n))).toQd = _
      rw [ih]
      simp [Value.toQd, Value.toQ]
      ring

/-- C9 (amended): on a null-free nonempty numeric column, `mean()` is the
`Decimal` quotient of the summed data by the count, rounded to the context's
28 significant digits — for integer data the sum itself is exact integer
arithmetic, so the mean is the rounded `sum/count`; `variance()` divides the
running context-rounded sum of the context-rounded squared deviations from
that mean by the count: the population divisor `count`, not `count − 1`. -/
theorem mean_variance_context_population (data : List Value)
    (hnum : ∀ v ∈ data, v.isNum = true) (hne : data ≠ []) :
    NumberColumn.mean data = Except.ok (Value.decimal
      (decDiv (data.foldl addNum (Value.int 0)).toQd (data.length : ℚ))) ∧
    ((∀ v ∈ data, ∃ n : ℤ, v = Value.int n) →
      (data.foldl addNum (Value.int 0)).toQd = (data.map Value.toQd).sum) ∧
    NumberColumn.variance data = Except.ok (Value.decimal
      (decDiv ((data.map (fun n => decPow2 (decSub n.toQd
          (decDiv (data.foldl addNum (Value.int 0)).toQd (data.length : ℚ))))).foldl
          decAdd 0)
        (data.length : ℚ))) := by
  refine ⟨mean_eq data hnum hne, ?_, variance_eq data hnum hne⟩
  intro hint
  have h0 := foldl_addNum_int data 0 hint
  simpa using h0

theorem mean_variance_context_population_witness :
    NumberColumn.mean [Value.int 1, Value.int 2] = Except.ok (Value.decimal
      (decDiv ([Value.int 1, Value.int 2].foldl addNum (Value.int 0)).toQd
        (([Value.int 1, Value.int 2] : List Value).length : ℚ))) :=
  (mean_variance_context_population [Value.int 1, Value.int 2]
    (by decide) (by decide)).1

/-- The `==`-class of a value: `None` by itself, strings by content, numbers
by numeric value (Python hashes equal numbers equally, so `dict` grouping
follows this key). -/
def Value.keyOf : Value → Option (String ⊕ ℚ)
  | .none => Option.none
  | .text s => some (Sum.inl s)
  | .int n => some (Sum.inr (n : ℚ))
  | .decimal q => some (Sum.inr q)

theorem pyEq_iff_keyOf {a b : Value} : pyEq a b = true ↔ a.keyOf = b.keyOf := by
  cases a <;> cases b <;> simp [pyEq, Value.keyOf]

theorem pyEq_refl (a : Value) : pyEq a a = true := pyEq_iff_keyOf.mpr rfl

theorem pyEq_symm {a b : Value} (h : pyEq a b = true) : pyEq b a = true :=
  pyEq_iff_keyOf.mpr (pyEq_iff_keyOf.mp h).symm

theorem pyEq_trans {a b c : Value} (h1 : pyEq a b = true) (h2 : pyEq b c = true) :
    pyEq a c = true :=
  pyEq_iff_keyOf.mpr ((pyEq_iff_keyOf.mp h1).trans (pyEq_iff_keyOf.mp h2))

/-- `Column.count(value)`: the number of elements of the column's data that
compare `==` to `value`. -/
def Column.count (data : List Value) (value : Value) : ℕ :=
  (data.filter (fun d => pyEq d value)).length

/-- Invariant of the occurrence dictionary after processing a prefix of the
data: every entry's key occurred, carries the exact occurrence count, keys
are pairwise `==`-distinct, and every processed value is covered by a key. -/
def countsInv (processed : List Value) (acc : List (Value × ℕ)) : Prop :=
  (∀ p ∈ acc, p.1 ∈ processed ∧ p.2 = Column.count processed p.1) ∧
  List.Pairwise (fun p q : Value × ℕ => pyEq p.1 q.1 = false) acc ∧
  (∀ v ∈ processed, ∃ p ∈ acc, pyEq p.1 v = true)

theorem count_append_single (processed : List Value) (v k : Value) :
    Column.count (processed ++ [v]) k =
      Column.count processed k + (if pyEq v k then 1 else 0) := by
  rw [Column.count, Column.count, List.filter_append]
  split_ifs with hv <;> simp [hv]

theorem countsInv_bump {processed : List Value} {acc : List (Value × ℕ)}
    (h : countsInv processed acc) (v : Value) :
    countsInv (processed ++ [v]) (bump acc v) := by
  obtain ⟨hcnt, hdist, hcov⟩ := h
  unfold bump
  split_ifs with hmem
  · refine ⟨?_, ?_, ?_⟩
    · intro p hp
      rw [List.mem_map] at hp
      obtain ⟨q, hq, hpq⟩ := hp
      by_cases hqv : pyEq q.1 v = true
      · rw [if_pos hqv] at hpq
        rw [← hpq]
        refine ⟨List.mem_append_left _ (hcnt q hq).1, ?_⟩
        rw [count_append_single, if_pos (pyEq_symm hqv), (hcnt q hq).2]
      · rw [if_neg hqv] at hpq
        rw [← hpq]
        refine ⟨List.mem_append_left _ (hcnt q hq).1, ?_⟩
        rw [count_append_single, if_neg (fun hv => hqv (pyEq_symm hv)),
          (hcnt q hq).2]
        omega
    · refine List.Pairwise.map _ ?_ hdist
      intro p q hpq
      have hk : ∀ r : Value × ℕ, ((if pyEq r.1 v then (r.1, r.2 + 1) else r)).1 = r.1 := by
        intro r; split_ifs <;> rfl
      rw [hk, hk]
      exact hpq
    · intro x hx
      rw [List.mem_append] at hx
      rcases hx with hx | hx
      · obtain ⟨p, hp, hpx⟩ := hcov x hx
        refine ⟨if pyEq p.1 v then (p.1, p.2 + 1) else p, List.mem_map_of_mem _ hp, ?_⟩
        split_ifs <;> exact hpx
      · rw [List.mem_singleton] at hx
        rw [hx]
        rw [List.any_eq_true] at hmem
        obtain ⟨p, hp, hpv⟩ := hmem
        refine ⟨if pyEq p.1 v then (p.1, p.2 + 1) else p, List.mem_map_of_mem _ hp, ?_⟩
        rw [if_pos hpv]
        exact hpv
  · have hnomatch : ∀ p ∈ acc, pyEq p.1 v = false := by
      intro p hp
      rcases Bool.eq_false_or_eq_true (pyEq p.1 v) with ht | hf
      · exact absurd (List.any_eq_true.mpr ⟨p, hp, ht⟩) hmem
      · exact hf
    refine ⟨?_, ?_, ?_⟩
    · intro p hp
      rw [List.mem_append] at hp
      rcases hp with hp | hp
      · refine ⟨List.mem_append_left _ (hcnt p hp).1, ?_⟩
        rw [count_append_single,
          if_neg (fun hv => by
            have h2 := pyEq_symm hv
            rw [hnomatch p hp] at h2
            exact Bool.false_ne_true h2),
          (hcnt p hp).2]
        omega
      · rw [List.mem_singleton] at hp
        rw [hp]
        refine ⟨List.mem_append_right _ (by simp), ?_⟩
        rw [count_append_single, if_pos (pyEq_refl v)]
        have hzero : Column.count processed v = 0 := by
          rw [Column.count, List.length_eq_zero, List.filter_eq_nil_iff]
          intro x hx hxv
          obtain ⟨p, hp, hpx⟩ := hcov x hx
          have := pyEq_trans hpx hxv
          rw [hnomatch p hp] at this
          exact Bool.false_ne_true this
        rw [hzero]
    · rw [List.pairwise_append]
      refine ⟨hdist, by simp, ?_⟩
      intro p hp q hq
      rw [List.mem_singleton] at hq
      rw [hq]
      exact hnomatch p hp
    · intro x hx
      rw [List.mem_append] at hx
      rcases hx with hx | hx
      · obtain ⟨p, hp, hpx⟩ := hcov x hx
        exact ⟨p, List.mem_append_left _ hp, hpx⟩
      · rw [List.mem_singleton] at hx
        rw [hx]
        exact ⟨(v, 1), List.mem_append_right _ (by simp), pyEq_refl v⟩

theorem countsInv_foldl :
    ∀ (rest processed : List Value) (acc : List (Value × ℕ)),
      countsInv processed acc → countsInv (processed ++ rest) (rest.foldl bump acc)
  | [], processed, acc, h => by simpa using h
  | x :: xs, processed, acc, h => by
      have h3 := countsInv_foldl xs (processed ++ [x]) (bump acc x) (countsInv_bump h x)
      rw [List.append_assoc] at h3
      simpa using h3

theorem countsAssoc_spec (data : List Value) : countsInv data (countsAssoc data) := by
  have h := countsInv_foldl data [] [] ⟨by simp, by simp, by simp⟩
  simpa [countsAssoc] using h

/-- The sort key of `sorted(data, key=lambda r: r[1], reverse=True)`: the
count cell of a counts-row (always an `int` in rows built by `counts()`). -/
def rowCount (r : List Value) : ℤ :=
  match r.getD 1 Value.none with
  | .int n => n
  | _ => 0

/-- `Column.counts()`: build the occurrence dictionary over the (cached)
data, pair each distinct value with its count, sort rows by descending count
(stable, like Python's `sorted(..., reverse=True)`), and fork a two-column
table `(original name, "count")` typed `(original type, IntColumn)`. -/
def ColumnState.countsOp (c : ColumnState) : ColumnState × Table :=
  let p := c.dataOp
  let assoc := countsAssoc p.2
  let column_names := [c.table.column_names.getD c.index "", "count"]
  let column_types := [c.table.column_types.getD c.index ColType.text, ColType.int]
  let data := assoc.map (fun q => [q.1, Value.int (q.2 : ℤ)])
  let rows := data.mergeSort (fun r s => decide (rowCount s ≤ rowCount r))
  (p.1, Table.mk rows column_types column_names)

/-- C6: `counts()` returns a two-column table named `(original name,
"count")` typed `(original type, Integer)`; its rows are a permutation of
one row per `==`-distinct value of the column paired with that value's exact
occurrence count (keys pairwise distinct and covering every value, nulls
included), ordered by descending count; on the concrete column
`[1,1,2,3,3,3]` the rows are exactly `(3,3), (1,2), (2,1)`. -/
theorem counts_desc_one_row_per_value (c : ColumnState) (hc : cacheInv c) :
    c.countsOp.2.column_names = [c.table.column_names.getD c.index "", "count"] ∧
    c.countsOp.2.column_types =
      [c.table.column_types.getD c.index ColType.text, ColType.int] ∧
    c.countsOp.2.data.Perm
      ((countsAssoc (sliceOf c.table c.index)).map
        (fun q => [q.1, Value.int (q.2 : ℤ)])) ∧
    List.Pairwise (fun r s => rowCount s ≤ rowCount r) c.countsOp.2.data ∧
    (∀ pr ∈ countsAssoc (sliceOf c.table c.index),
      pr.1 ∈ sliceOf c.table c.index ∧
      pr.2 = Column.count (sliceOf c.table c.index) pr.1) ∧
    List.Pairwise (fun pr qr : Value × ℕ => pyEq pr.1 qr.1 = false)
      (countsAssoc (sliceOf c.table c.index)) ∧
    (∀ v ∈ sliceOf c.table c.index,
      ∃ pr ∈ countsAssoc (sliceOf c.table c.index), pyEq pr.1 v = true) ∧
    ((ColumnState.mk0 ⟨[[Value.int 1], [Value.int 1], [Value.int 2], [Value.int 3],
          [Value.int 3], [Value.int 3]], [ColType.int], ["n"]⟩ 0).countsOp.2.data =
      [[Value.int 3, Value.int 3], [Value.int 1, Value.int 2],
        [Value.int 2, Value.int 1]]) := by
  obtain ⟨hcnt, hdist, hcov⟩ := countsAssoc_spec (sliceOf c.table c.index)
  have hdata : c.countsOp.2.data =
      ((countsAssoc (sliceOf c.table c.index)).map
        (fun q => [q.1, Value.int (q.2 : ℤ)])).mergeSort
        (fun r s => decide (rowCount s ≤ rowCount r)) := by
    show ((countsAssoc c.dataOp.2).map
        (fun q => [q.1, Value.int (q.2 : ℤ)])).mergeSort
        (fun r s => decide (rowCount s ≤ rowCount r)) = _
    rw [dataOp_snd c hc]
  refine ⟨rfl, rfl, ?_, ?_, hcnt, hdist, hcov, ?_⟩
  · rw [hdata]
    exact List.mergeSort_perm _ _
  · rw [hdata]
    have htr : ∀ r s t : List Value, decide (rowCount s ≤ rowCount r) →
        decide (rowCount t ≤ rowCount s) → decide (rowCount t ≤ rowCount r) := by
      intro r s t h1 h2
      exact decide_eq_true (le_trans (of_decide_eq_true h2) (of_decide_eq_true h1))
    have hto : ∀ r s : List Value,
        decide (rowCount s ≤ rowCount r) || decide (rowCount r ≤ rowCount s) := by
      intro r s
      rcases le_total (rowCount s) (rowCount r) with h | h <;> simp [h]
    have hp := List.sorted_mergeSort htr hto
      ((countsAssoc (sliceOf c.table c.index)).map (fun q => [q.1, Value.int (q.2 : ℤ)]))
    exact hp.imp (fun hab => of_decide_eq_true hab)
  · show (List.mergeSort _ _ : List (List Value)) = _
    rw [show countsAssoc ((ColumnState.mk0 ⟨[[Value.int 1], [Value.int 1], [Value.int 2],
        [Value.int 3], [Value.int 3], [Value.int 3]], [ColType.int], ["n"]⟩ 0).dataOp.2) =
        [(Value.int 1, 2), (Value.int 2, 1), (Value.int 3, 3)] from rfl]
    simp [List.mergeSort, rowCount]

theorem counts_desc_one_row_per_value_witness :
    (ColumnState.mk0 ⟨[[Value.int 1], [Value.int 1], [Value.int 2], [Value.int 3],
        [Value.int 3], [Value.int 3]], [ColType.int], ["n"]⟩ 0).countsOp.2.data =
      [[Value.int 3, Value.int 3], [Value.int 1, Value.int 2],
        [Value.int 2, Value.int 1]] :=
  (counts_desc_one_row_per_value
    (ColumnState.mk0 ⟨[[Value.int 1], [Value.int 1], [Value.int 2], [Value.int 3],
        [Value.int 3], [Value.int 3]], [ColType.int], ["n"]⟩ 0)
    (fun d hd => by cases hd)).2.2.2.2.2.2.2

/-- Leading- and trailing-whitespace removal, Python `str.strip()`. -/
def stripChars (l : List Char) : List Char :=
  ((l.dropWhile Char.isWhitespace).reverse.dropWhile Char.isWhitespace).reverse

/-- `d.replace(',', '').strip()`: drop every comma, then strip surrounding
whitespace (the numeric casts run this on string input before parsing). -/
def stripSep (s : String) : String :=
  ⟨stripChars (s.data.filter (fun ch => ch ≠ ','))⟩

def allDigits (l : List Char) : Bool := l.all Char.isDigit

def digitsVal (l : List Char) : ℕ :=
  l.foldl (fun acc ch => 10 * acc + (ch.toNat - 48)) 0

/-- Python `int(s)` on an already-stripped string: optional sign followed by
at least one decimal digit; anything else raises `ValueError`. -/
def pyIntParse (s : String) : Option ℤ :=
  match s.data with
  | '+' :: rest =>
      if rest ≠ [] ∧ allDigits rest = true then some (digitsVal rest : ℤ) else Option.none
  | '-' :: rest =>
      if rest ≠ [] ∧ allDigits rest = true then some (-(digitsVal rest : ℤ)) else Option.none
  | l => if l ≠ [] ∧ allDigits l = true then some (digitsVal l : ℤ) else Option.none

def splitAtExp : List Char → List Char × Option (List Char)
  | [] => ([], Option.none)
  | ch :: rest =>
      if ch = 'e' ∨ ch = 'E' then ([], some rest)
      else
        let p := splitAtExp rest
        (ch :: p.1, p.2)

def splitAtDot : List Char → List Char × Option (List Char)
  | [] => ([], Option.none)
  | ch :: rest =>
      if ch = '.' then ([], some rest)
      else
        let p := splitAtDot rest
        (ch :: p.1, p.2)

def parseExpPart (l : List Char) : Option ℤ :=
  match l with
  | '+' :: rest =>
      if rest ≠ [] ∧ allDigits rest = true then some (digitsVal rest : ℤ) else Option.none
  | '-' :: rest =>
      if rest ≠ [] ∧ allDigits rest = true then some (-(digitsVal rest : ℤ)) else Option.none
  | rest => if rest ≠ [] ∧ allDigits rest = true then some (digitsVal rest : ℤ) else Option.none

/-- The exact rational `sgn * digits * 10 ^ e`, built with a single `mkRat`
so that it evaluates on concrete literals. -/
def ratOfSci (sgn : ℤ) (digits : ℕ) (e : ℤ) : ℚ :=
  if 0 ≤ e then mkRat (sgn * (digits : ℤ) * 10 ^ e.toNat) 1
  else mkRat (sgn * (digits : ℤ)) (10 ^ (-e).toNat)

/-- Python `Decimal(s)` on an already-stripped string: optional sign, digits
with at most one decimal point (at least one digit overall), optional
exponent.  The special values (`NaN`, `Infinity`) are not modelled; no claim
exercises them.  The parsed value is the exact rational the literal denotes. -/
def pyDecimalParse (s : String) : Option ℚ :=
  let sl : (ℤ × List Char) :=
    match s.data with
    | '+' :: rest => (1, rest)
    | '-' :: rest => (-1, rest)
    | l => (1, l)
  let me := splitAtExp sl.2
  let ifr := splitAtDot me.1
  let fr := ifr.2.getD []
  if allDigits ifr.1 = true ∧ allDigits fr = true ∧ (ifr.1 ≠ [] ∨ fr ≠ []) then
    match me.2 with
    | Option.none =>
        some (ratOfSci sl.1 (digitsVal (ifr.1 ++ fr)) (-(fr.length : ℤ)))
    | some ex =>
        match parseExpPart ex with
        | some k =>
            some (ratOfSci sl.1 (digitsVal (ifr.1 ++ fr)) (k - (fr.length : ℤ)))
        | Option.none => Option.none
  else Option.none

/-- `IntColumn._cast` on one cell: strip separators/whitespace from strings,
map `''` and `None` to `None`, and otherwise convert with `int(...)`
(truncation toward zero for `Decimal` input, literal parsing for strings). -/
def IntColumn.castValue (d : Value) : Except PyErr Value :=
  let d2 := match d with
    | .text s => Value.text (stripSep s)
    | _ => d
  if pyEq d2 (Value.text "") || d2.isNone then Except.ok Value.none
  else
    match d2 with
    | .text s =>
        match pyIntParse s with
        | some n => Except.ok (Value.int n)
        | Option.none => Except.error .valueError
    | .int n => Except.ok (Value.int n)
    | .decimal q => Except.ok (Value.int (q.num.tdiv (q.den : ℤ)))
    | .none => Except.ok Value.none

/-- `DecimalColumn._cast` on one cell: same stripping and null mapping, then
`Decimal(...)` — exact conversion from strings and ints (never from binary
floats). -/
def DecimalColumn.castValue (d : Value) : Except PyErr Value :=
  let d2 := match d with
    | .text s => Value.text (stripSep s)
    | _ => d
  if pyEq d2 (Value.text "") || d2.isNone then Except.ok Value.none
  else
    match d2 with
    | .text s =>
        match pyDecimalParse s with
        | some q => Except.ok (Value.decimal q)
        | Option.none => Except.error .valueError
    | .int n => Except.ok (Value.decimal (n : ℚ))
    | .decimal q => Except.ok (Value.decimal q)
    | .none => Except.ok Value.none

/-- `IntColumn._cast`: the per-cell cast over the whole column; the first
failing cell aborts the cast. -/
def IntColumn.cast (data : List Value) : Except PyErr (List Value) :=
  data.mapM IntColumn.castValue

/-- `DecimalColumn._cast`: the per-cell cast over the whole column. -/
def DecimalColumn.cast (data : List Value) : Except PyErr (List Value) :=
  data.mapM DecimalColumn.castValue

/-- Python `unicode(d)`: `None` renders as the string `"None"`; strings stay
themselves; ints render in decimal.  The digit string of a `Decimal` is not
recoverable from the rational model, so that case is a stand-in no theorem
relies on. -/
def pyUnicode : Value → String
  | .none => "None"
  | .text s => s
  | .int n => toString n
  | .decimal q => toString q

/-- `TextColumn._cast` on one cell: `''` maps to `None`; every other value —
including `None` itself — is converted with `unicode(...)`. -/
def TextColumn.castValue (d : Value) : Value :=
  if pyEq d (Value.text "") then Value.none else Value.text (pyUnicode d)

/-- `TextColumn._cast` over the whole column (string conversion never
raises here). -/
def TextColumn.cast (data : List Value) : List Value :=
  data.map TextColumn.castValue

/-- C8: the numeric casts strip commas and surrounding whitespace from
string input before parsing; the (stripped-)empty string and `None` map to
`None`; every successfully parsed remainder becomes the canonical numeric
value; concretely `"1,000"` casts to the integer `1000`, `""` to `None`, and
`"3.14"` to the exact rational `157/50` (no binary-float detour). -/
theorem numeric_casts_strip_and_parse :
    (∀ s : String, stripSep s = "" →
      IntColumn.castValue (Value.text s) = Except.ok Value.none) ∧
    (∀ (s : String) (n : ℤ), pyIntParse (stripSep s) = some n →
      IntColumn.castValue (Value.text s) = Except.ok (Value.int n)) ∧
    IntColumn.castValue Value.none = Except.ok Value.none ∧
    (∀ s : String, stripSep s = "" →
      DecimalColumn.castValue (Value.text s) = Except.ok Value.none) ∧
    (∀ (s : String) (q : ℚ), pyDecimalParse (stripSep s) = some q →
      DecimalColumn.castValue (Value.text s) = Except.ok (Value.decimal q)) ∧
    DecimalColumn.castValue Value.none = Except.ok Value.none ∧
    IntColumn.castValue (Value.text "1,000") = Except.ok (Value.int 1000) ∧
    IntColumn.castValue (Value.text "") = Except.ok Value.none ∧
    DecimalColumn.castValue (Value.text "3.14") =
      Except.ok (Value.decimal (157 / 50)) := by
  refine ⟨?_, ?_, rfl, ?_, ?_, rfl, rfl, rfl, ?_⟩
  · intro s h
    simp [IntColumn.castValue, h, pyEq]
  · intro s n hn
    by_cases h0 : stripSep s = ""
    · rw [h0] at hn
      exact absurd hn (by simp [pyIntParse, allDigits])
    · simp [IntColumn.castValue, pyEq, h0, Value.isNone, hn]
  · intro s h
    simp [DecimalColumn.castValue, h, pyEq]
  · intro s q hq
    by_cases h0 : stripSep s = ""
    · rw [h0] at hq
      exact absurd hq (by simp [pyDecimalParse, splitAtExp, splitAtDot, allDigits])
    · simp [DecimalColumn.castValue, pyEq, h0, Value.isNone, hq]
  · rw [show DecimalColumn.castValue (Value.text "3.14") =
      Except.ok (Value.decimal (mkRat 157 50)) from rfl]
    norm_num [Rat.mkRat_eq_div]

theorem numeric_casts_strip_and_parse_witness :
    IntColumn.castValue (Value.text " 2,5 ") = Except.ok (Value.int 25) :=
  numeric_casts_strip_and_parse.2.1 " 2,5 " 25 (by decide)

/-- C10: `TextColumn._cast` turns an absent value into the literal string
`"None"` (because `None != ''` and `unicode(None)` is `u'None'`): only the
exact empty string is mapped to the absent marker, every other value —
including an already-absent one — becomes its string rendering, so a column
containing `None` casts to one containing the text `"None"`. -/
theorem text_cast_renders_none_as_string :
    TextColumn.castValue Value.none = Value.text "None" ∧
    (∀ v : Value, TextColumn.castValue v = Value.none ↔ v = Value.text "") ∧
    (∀ s : String, s ≠ "" → TextColumn.castValue (Value.text s) = Value.text s) ∧
    (∀ data : List Value, Value.none ∈ data →
      Value.text "None" ∈ TextColumn.cast data) := by
  refine ⟨rfl, ?_, ?_, ?_⟩
  · intro v
    cases v with
    | none => simp [TextColumn.castValue, pyEq, pyUnicode]
    | text s => by_cases hs : s = "" <;>
        simp [TextColumn.castValue, pyEq, pyUnicode, hs]
    | int n => simp [TextColumn.castValue, pyEq, pyUnicode]
    | decimal q => simp [TextColumn.castValue, pyEq, pyUnicode]
  · intro s hs
    simp [TextColumn.castValue, pyEq, hs, pyUnicode]
  · intro data hd
    exact List.mem_map.mpr ⟨Value.none, hd, rfl⟩

theorem text_cast_renders_none_as_string_witness :
    Value.text "None" ∈ TextColumn.cast [Value.int 7, Value.none] :=
  text_cast_renders_none_as_string.2.2.2 [Value.int 7, Value.none] (by simp)
